import Mathlib

/-!
Verification development for the arena-tracker script (src/main.py).

The script resolves a benchmark bond yield from a chain of unreliable
sources (manual override, Yahoo Finance, Bank of Canada, static fallback),
turns it into an amortization impact record, and appends/merges the record
into a CSV ledger with one row per calendar day.

Modelling conventions:
* Python floats are idealized as exact rationals (ℚ).
* The outcome of each network fetch is passed in as an explicit parameter
  (`YahooFetch` for the Yahoo path, `Option ℚ` for the Bank of Canada path),
  so every possible run of the script corresponds to a choice of parameters.
* `datetime.now().strftime("%Y-%m-%d")` is passed in as an explicit `today`
  string parameter.
* Python's `ZeroDivisionError` is modelled by returning `none`.
* The CSV file is modelled as `Option (List (List Char))`: `none` when the
  file does not exist, otherwise the list of its lines (without newline
  terminators).  Python's substring test `data["date"] in lines[-1]`
  (line 121 of the source) is modelled as a genuine contiguous-segment test
  on the rendered characters of the line.
-/

namespace ArenaTracker

/-- Configuration constant `PRINCIPAL = 140000000` (src/main.py line 9). -/
def PRINCIPAL : ℚ := 140000000

/-- Configuration constant `AMORTIZATION = 30` (src/main.py line 10). -/
def AMORTIZATION : ℕ := 30

/-- Configuration constant `MUNICIPAL_SPREAD = 1.10` (src/main.py line 11). -/
def MUNICIPAL_SPREAD : ℚ := 11/10

/-- Configuration constant `HOUSEHOLDS = 45000` (src/main.py line 12). -/
def HOUSEHOLDS : ℚ := 45000

/-- Outcome of the Yahoo Finance fetch inside `get_yahoo_rate`
(src/main.py lines 49-54): an exception escaping the `try` block, an empty
price history, or a last closing value. -/
inductive YahooFetch where
  | exn
  | empty
  | ok (close : ℚ)
deriving DecidableEq

/-- `get_yahoo_rate` (src/main.py lines 19-67): on an exception or an empty
frame it falls through and returns `None`; otherwise it takes the last
closing value and divides it by 10 when it exceeds 10 (`if val > 10`). -/
def get_yahoo_rate : YahooFetch → Option ℚ
  | .exn => none
  | .empty => none
  | .ok v => some (if 10 < v then v / 10 else v)

/-- The Bank-of-Canada stage of `get_bond_yield` (src/main.py lines 80-94):
`some v` models a response whose JSON parse and field lookups succeeded with
value `v` (returned unconditionally, whatever its sign); `none` models any
exception or a missing/empty `observations` field, after which the function
returns the hard-coded last-known-good rate `3.861`. -/
def boc_stage : Option ℚ → ℚ
  | some v => v
  | none => 3861/1000

/-- `get_bond_yield` (src/main.py lines 69-94).  `override` is the module
constant `MANUAL_OVERRIDE` (0 in the shipped configuration, line 17); the
source uses it only when `MANUAL_OVERRIDE > 0`.  The Yahoo result is used
under Python truthiness (`if yahoo_rate:`), so `None` and `0.0` both fall
through to the Bank-of-Canada stage. -/
def get_bond_yield (override : ℚ) (yahoo : YahooFetch) (boc : Option ℚ) : ℚ :=
  if 0 < override then override
  else
    match get_yahoo_rate yahoo with
    | some v => if v = 0 then boc_stage boc else v
    | none => boc_stage boc

/-- Round-half-to-even on a rational, the tie-breaking Python's built-in
`round` uses. -/
def roundHalfEven (x : ℚ) : ℤ :=
  if Int.fract x < 1/2 then ⌊x⌋
  else if 1/2 < Int.fract x then ⌊x⌋ + 1
  else if ⌊x⌋ % 2 = 0 then ⌊x⌋ else ⌊x⌋ + 1

/-- Python's `round(x, ndigits)`, idealized to exact rationals. -/
def pyRound (ndigits : ℕ) (x : ℚ) : ℚ :=
  (roundHalfEven (x * 10 ^ ndigits) : ℚ) / 10 ^ ndigits

/-- `total_rate = bond_yield + MUNICIPAL_SPREAD` (src/main.py line 97). -/
def total_rate (b : ℚ) : ℚ := b + MUNICIPAL_SPREAD

/-- `r = total_rate / 100` (src/main.py line 98). -/
def rate (b : ℚ) : ℚ := total_rate b / 100

/-- `numerator = PRINCIPAL * (r * (1 + r)**AMORTIZATION)` (line 99). -/
def numerator (b : ℚ) : ℚ := PRINCIPAL * (rate b * (1 + rate b) ^ AMORTIZATION)

/-- `denominator = ((1 + r)**AMORTIZATION) - 1` (line 100). -/
def denominator (b : ℚ) : ℚ := (1 + rate b) ^ AMORTIZATION - 1

/-- `annual_payment = numerator / denominator` (line 101), as the exact
rational value when the denominator is nonzero. -/
def annual_payment (b : ℚ) : ℚ := numerator b / denominator b

/-- `total_cost = annual_payment * AMORTIZATION` (line 102). -/
def total_cost (b : ℚ) : ℚ := annual_payment b * (AMORTIZATION : ℚ)

/-- `total_interest = total_cost - PRINCIPAL` (line 103). -/
def total_interest (b : ℚ) : ℚ := total_cost b - PRINCIPAL

/-- `household_impact = annual_payment / HOUSEHOLDS` (line 104). -/
def household_impact (b : ℚ) : ℚ := annual_payment b / HOUSEHOLDS

/-- The record dictionary built by `calculate_impact` (lines 106-113), in
the source's key insertion order. -/
structure ImpactRecord where
  date : String
  bond_yield : ℚ
  total_rate : ℚ
  annual_payment : ℚ
  total_interest : ℚ
  household_impact : ℚ
deriving DecidableEq, Repr

/-- `calculate_impact` (src/main.py lines 96-113).  `today` stands for
`datetime.now().strftime("%Y-%m-%d")`.  When the denominator is zero the
Python division raises `ZeroDivisionError`, modelled as `none`. -/
def calculate_impact (today : String) (b : ℚ) : Option ImpactRecord :=
  if denominator b = 0 then none
  else some
    { date := today
      bond_yield := pyRound 3 b
      total_rate := pyRound 3 (total_rate b)
      annual_payment := pyRound 2 (annual_payment b)
      total_interest := pyRound 2 (total_interest b)
      household_impact := pyRound 2 (household_impact b) }

/-- The non-date fields of a record, used to state clock-independence. -/
def stripDate (r : ImpactRecord) : ℚ × ℚ × ℚ × ℚ × ℚ :=
  (r.bond_yield, r.total_rate, r.annual_payment, r.total_interest, r.household_impact)

/-- Written from the specification's formula (§4.2): the annuity payment
`principal * r * (1+r)^n / ((1+r)^n - 1)`, to be compared with the
source-derived `annual_payment`. -/
def annualPaymentSpec (principal r : ℚ) (n : ℕ) : ℚ :=
  principal * r * (1 + r) ^ n / ((1 + r) ^ n - 1)

/-- The ten decimal digit characters. -/
def digitChars : List Char := ['0', '1', '2', '3', '4', '5', '6', '7', '8', '9']

/-- Decimal digit string of a natural number, most significant digit
first; structurally recursive on a fuel argument so that it evaluates by
kernel reduction (`n + 1` units of fuel always suffice since `n / 10 < n`
for `n ≥ 10`). -/
def natDigitsAux : ℕ → ℕ → List Char
  | 0, _ => []
  | fuel + 1, n =>
    if n < 10 then [digitChars.getD n '0']
    else natDigitsAux fuel (n / 10) ++ [digitChars.getD (n % 10) '0']

/-- Decimal digit string of a natural number. -/
def natDigits (n : ℕ) : List Char := natDigitsAux (n + 1) n

/-- Character rendering of a rational number, standing for Python's
`str(float)` in the CSV lines.  Like a decimal float literal it never
contains a comma and contains `-` only as its first character, which is all
the `date in line` substring test of src/main.py line 121 can depend on. -/
def ratChars (q : ℚ) : List Char :=
  (if q < 0 then ['-'] else []) ++ natDigits q.num.natAbs ++ '/' :: natDigits q.den

/-- The characters of the CSV data line written for a record, in the field
order of the f-string on src/main.py line 123 (the `csv.DictWriter` append
path on lines 129-133 uses the same `data.keys()` order), without the
trailing newline. -/
def renderRow (r : ImpactRecord) : List Char :=
  r.date.data ++ ',' ::
    (ratChars r.bond_yield ++ ',' ::
      (ratChars r.total_rate ++ ',' ::
        (ratChars r.annual_payment ++ ',' ::
          (ratChars r.total_interest ++ ',' :: ratChars r.household_impact))))

/-- The header line `writer.writeheader()` produces from the record's keys
(src/main.py lines 130-132). -/
def headerRow : List Char :=
  "date,bond_yield,total_rate,annual_payment,total_interest,household_impact".data

/-- `update_csv` (src/main.py lines 115-134) as a function on the modelled
file.  When the file exists, has more than one line, and the incoming date
occurs as a substring of the last line (`data["date"] in lines[-1]`), the
last line is replaced in place; otherwise the row is appended, preceded by
the header when the file did not exist. -/
def update_csv (file : Option (List (List Char))) (d : ImpactRecord) :
    List (List Char) :=
  match file with
  | some lines =>
    if 1 < lines.length ∧ d.date.data <:+: lines.getLastD [] then
      lines.dropLast ++ [renderRow d]
    else
      lines ++ [renderRow d]
  | none => [headerRow, renderRow d]

/-- The file contents after a sequence of `update_csv` invocations, one per
scheduled run of the script. -/
def runWrites (file : Option (List (List Char))) :
    List ImpactRecord → Option (List (List Char))
  | [] => file
  | d :: ds => runWrites (some (update_csv file d)) ds

/-- Last-write-wins merge of adjacent records carrying the same date: the
sequence of data rows the dedup-by-last-row policy of `update_csv` keeps. -/
def mergeWrites : List ImpactRecord → List ImpactRecord
  | [] => []
  | [d] => [d]
  | d :: d' :: ds =>
    if d.date = d'.date then mergeWrites (d' :: ds)
    else d :: mergeWrites (d' :: ds)

/-- What the proofs need of a `%Y-%m-%d` date string: ten characters, a
dash at index 4, and no comma. -/
def ValidDate (s : String) : Prop :=
  s.data.length = 10 ∧ s.data.get? 4 = some '-' ∧ ',' ∉ s.data

instance (s : String) : Decidable (ValidDate s) := by
  unfold ValidDate; infer_instance

/-- Number of lines of a file that contain the given date as a contiguous
substring — how a reader detects duplicate rows for a day. -/
def rowsWithDate (lines : List (List Char)) (date : String) : ℕ :=
  (lines.filter (fun l => decide (date.data <:+: l))).length

/-- Successive on-disk contents during the replace-last-row path of
`update_csv` (src/main.py lines 124-125): the original content, then the
empty file the moment `open(CSV_FILE, 'w')` truncates it, then the new
content once `writelines` completes.  No temporary file, rename, or fsync
is involved: the live file itself is truncated in place. -/
def replaceTrace (oldLines newLines : List (List Char)) :
    List (List (List Char)) :=
  [oldLines, [], newLines]

/-- A concrete record with the given date and the given value in every
numeric field, used for closed evaluations of the ledger model. -/
def sampleRec (d : String) (v : ℚ) : ImpactRecord :=
  { date := d, bond_yield := v, total_rate := v, annual_payment := v
    total_interest := v, household_impact := v }

theorem digitChars_clean : ∀ c ∈ digitChars, c ≠ '-' ∧ c ≠ ',' := by decide

theorem getD_digitChars_mem (m : ℕ) : digitChars.getD m '0' ∈ digitChars := by
  rcases h : digitChars[m]? with _ | c
  · simp only [List.getD_eq_getElem?_getD, h, Option.getD_none]
    decide
  · have hc : c ∈ digitChars := by
      obtain ⟨hm, rfl⟩ := List.getElem?_eq_some_iff.mp h
      exact List.getElem_mem hm
    simp [List.getD_eq_getElem?_getD, h, hc]

theorem natDigitsAux_mem (fuel : ℕ) :
    ∀ n, ∀ c ∈ natDigitsAux fuel n, c ∈ digitChars := by
  induction fuel with
  | zero => intro n c hc; simp [natDigitsAux] at hc
  | succ fuel ih =>
    intro n c hc
    by_cases h : n < 10
    · simp only [natDigitsAux, if_pos h, List.mem_singleton] at hc
      subst hc; exact getD_digitChars_mem n
    · simp only [natDigitsAux, if_neg h, List.mem_append, List.mem_singleton] at hc
      rcases hc with hc | hc
      · exact ih _ c hc
      · subst hc; exact getD_digitChars_mem (n % 10)

theorem natDigits_mem (n : ℕ) : ∀ c ∈ natDigits n, c ∈ digitChars :=
  natDigitsAux_mem (n + 1) n

/-- Every character of the digits-slash-digits body of `ratChars` differs
from the dash and the comma. -/
theorem ratChars_body_clean (q : ℚ) :
    ∀ c ∈ natDigits q.num.natAbs ++ '/' :: natDigits q.den, c ≠ '-' ∧ c ≠ ',' := by
  intro c hc
  rcases List.mem_append.mp hc with hc | hc
  · exact digitChars_clean c (natDigits_mem _ c hc)
  · rcases List.mem_cons.mp hc with rfl | hc
    · exact ⟨by decide, by decide⟩
    · exact digitChars_clean c (natDigits_mem _ c hc)

theorem ratChars_no_comma (q : ℚ) : ',' ∉ ratChars q := by
  intro hc
  unfold ratChars at hc
  rcases List.mem_append.mp hc with hc | hc
  · rcases List.mem_append.mp hc with hc | hc
    · by_cases h : q < 0 <;> simp [h] at hc
    · exact (digitChars_clean _ (natDigits_mem _ _ hc)).2 rfl
  · rcases List.mem_cons.mp hc with h | hc
    · exact absurd h (by decide)
    · exact (digitChars_clean _ (natDigits_mem _ _ hc)).2 rfl

/-- In `ratChars` a dash can occur only as the leading sign character. -/
theorem ratChars_dash_head (q : ℚ) :
    ∀ s t, ratChars q = s ++ '-' :: t → s = [] := by
  intro s t h
  have hbody : ∀ c ∈ natDigits q.num.natAbs ++ '/' :: natDigits q.den, c ≠ '-' :=
    fun c hc => (ratChars_body_clean q c hc).1
  by_cases hq : q < 0
  · have hform : ratChars q
        = '-' :: (natDigits q.num.natAbs ++ '/' :: natDigits q.den) := by
      simp [ratChars, if_pos hq]
    rw [hform] at h
    cases s with
    | nil => rfl
    | cons c₀ s' =>
      simp only [List.cons_append, List.cons.injEq] at h
      exact absurd rfl
        (hbody '-' (h.2 ▸ List.mem_append_right s' (List.mem_cons_self '-' t)))
  · have hform : ratChars q = natDigits q.num.natAbs ++ '/' :: natDigits q.den := by
      simp [ratChars, if_neg hq]
    rw [hform] at h
    exact absurd rfl
      (hbody '-' (h ▸ List.mem_append_right s (List.mem_cons_self '-' t)))

/-- A needle containing a dash at a non-initial position cannot occur as a
contiguous segment of a string whose dashes are all initial. -/
theorem not_seg_of_inner_dash (d w u v : List Char)
    (hd : d = u ++ '-' :: v) (hu : u ≠ [])
    (hw : ∀ s t, w = s ++ '-' :: t → s = []) : ¬ d <:+: w := by
  rintro ⟨s, t, hst⟩
  subst hd
  have hw' : w = (s ++ u) ++ '-' :: (v ++ t) := by
    rw [← hst]; simp [List.append_assoc]
  exact hu (List.append_eq_nil.mp (hw _ _ hw')).2

/-- A `%Y-%m-%d` date cannot occur inside a rendered numeric field. -/
theorem date_not_seg_ratChars (d : String) (hd : ValidDate d) (q : ℚ) :
    ¬ d.data <:+: ratChars q := by
  obtain ⟨hlen, h4, _⟩ := hd
  have h4' : d.data[4]? = some '-' := by
    rw [← List.get?_eq_getElem?]; exact h4
  obtain ⟨hlt, hget⟩ := List.getElem?_eq_some_iff.mp h4'
  have hsplit : d.data = d.data.take 4 ++ '-' :: d.data.drop 5 := by
    conv_lhs => rw [← List.take_append_drop 4 d.data]
    rw [List.drop_eq_getElem_cons hlt, hget]
  have hu : d.data.take 4 ≠ [] := by
    intro h
    have h4len : (d.data.take 4).length = 4 := by
      rw [List.length_take]; omega
    rw [h] at h4len
    simp at h4len
  exact not_seg_of_inner_dash _ _ _ _ hsplit hu (ratChars_dash_head q)

/-- A comma-free needle occurring contiguously in `a ++ ',' :: b` occurs
entirely in `a` or entirely in `b`. -/
theorem seg_split_at_comma (d a b : List Char) (hc : ',' ∉ d) :
    d <:+: a ++ ',' :: b → d <:+: a ∨ d <:+: b := by
  rintro ⟨s, t, hst⟩
  have hst' : s ++ (d ++ t) = a ++ ',' :: b := by
    simpa [List.append_assoc] using hst
  rcases le_or_lt (s.length + d.length) a.length with h1 | h1
  · left
    have e1 : List.take a.length (s ++ (d ++ t))
        = s ++ (d ++ List.take (a.length - s.length - d.length) t) := by
      rw [List.take_append_eq_append_take, List.take_append_eq_append_take,
        List.take_of_length_le (show s.length ≤ a.length by omega),
        List.take_of_length_le (show d.length ≤ a.length - s.length by omega)]
    have e2 : List.take a.length (a ++ ',' :: b) = a := by
      rw [List.take_append_eq_append_take, List.take_length, Nat.sub_self,
        List.take_zero, List.append_nil]
    have h := congrArg (List.take a.length) hst'
    rw [e1, e2] at h
    exact ⟨s, List.take (a.length - s.length - d.length) t,
      by simpa [List.append_assoc] using h⟩
  · rcases le_or_lt (a.length + 1) s.length with h2 | h2
    · right
      have e1 : List.drop (a.length + 1) (s ++ (d ++ t))
          = List.drop (a.length + 1) s ++ (d ++ t) := by
        rw [List.drop_append_eq_append_drop,
          show a.length + 1 - s.length = 0 by omega, List.drop_zero]
      have e2 : List.drop (a.length + 1) (a ++ ',' :: b) = b := by
        rw [List.drop_append_eq_append_drop,
          List.drop_eq_nil_of_le (show a.length ≤ a.length + 1 by omega),
          show a.length + 1 - a.length = 1 by omega]
        simp
      have h := congrArg (List.drop (a.length + 1)) hst'
      rw [e1, e2] at h
      exact ⟨List.drop (a.length + 1) s, t, by simpa [List.append_assoc] using h⟩
    · exfalso
      have hr : (a ++ ',' :: b)[a.length]? = some ',' := by
        rw [List.getElem?_append_right (le_refl a.length), Nat.sub_self]
        simp
      have hl : (s ++ (d ++ t))[a.length]? = d[a.length - s.length]? := by
        rw [List.getElem?_append_right (show s.length ≤ a.length by omega)]
        exact List.getElem?_append_left
          (show a.length - s.length < d.length by omega)
      rw [hst', hr] at hl
      obtain ⟨hk, hget⟩ := List.getElem?_eq_some_iff.mp hl.symm
      exact hc (hget ▸ List.getElem_mem hk)

/-- Python's substring test `data["date"] in lines[-1]` against a rendered
data row succeeds exactly when the incoming date equals the row's date. -/
theorem date_seg_renderRow (d : String) (r : ImpactRecord)
    (hd : ValidDate d) (hr : ValidDate r.date) :
    d.data <:+: renderRow r ↔ d = r.date := by
  have hcomma : ',' ∉ d.data := hd.2.2
  constructor
  · intro hseg
    unfold renderRow at hseg
    rcases seg_split_at_comma _ _ _ hcomma hseg with h | h
    · have hlen : d.data.length = r.date.data.length := by rw [hd.1, hr.1]
      exact String.toList_inj.mp (List.eq_of_infix_of_length_eq h hlen)
    · rcases seg_split_at_comma _ _ _ hcomma h with h | h
      · exact absurd h (date_not_seg_ratChars d hd _)
      rcases seg_split_at_comma _ _ _ hcomma h with h | h
      · exact absurd h (date_not_seg_ratChars d hd _)
      rcases seg_split_at_comma _ _ _ hcomma h with h | h
      · exact absurd h (date_not_seg_ratChars d hd _)
      rcases seg_split_at_comma _ _ _ hcomma h with h | h
      · exact absurd h (date_not_seg_ratChars d hd _)
      · exact absurd h (date_not_seg_ratChars d hd _)
  · rintro rfl
    refine ⟨[], ',' ::
      (ratChars r.bond_yield ++ ',' ::
        (ratChars r.total_rate ++ ',' ::
          (ratChars r.annual_payment ++ ',' ::
            (ratChars r.total_interest ++ ',' :: ratChars r.household_impact)))), ?_⟩
    simp [renderRow, List.append_assoc]

/-- Claim C9: for every closing value `v` fetched from the Yahoo source,
`get_yahoo_rate` returns `v / 10` when `v > 10` and `v` unchanged
otherwise. -/
theorem yahoo_quote_scale (v : ℚ) :
    (10 < v → get_yahoo_rate (.ok v) = some (v / 10)) ∧
    (v ≤ 10 → get_yahoo_rate (.ok v) = some v) := by
  constructor
  · intro h
    simp [get_yahoo_rate, if_pos h]
  · intro h
    simp [get_yahoo_rate, if_neg (not_lt.mpr h)]

/-- Witness for C9: the quoted value 38.6 becomes 3.86, and 7 is returned
unchanged. -/
theorem yahoo_quote_scale_witness :
    ((10:ℚ) < 193/5 ∧ get_yahoo_rate (.ok (193/5)) = some (193/5 / 10)) ∧
    ((7:ℚ) ≤ 10 ∧ get_yahoo_rate (.ok 7) = some 7) :=
  ⟨⟨by norm_num, (yahoo_quote_scale (193/5)).1 (by norm_num)⟩,
   ⟨by norm_num, (yahoo_quote_scale 7).2 (by norm_num)⟩⟩

/-- Claim C1 counterexample: a negative closing value from the Yahoo
candidate is not skipped — the resolver returns it to the pipeline, so the
resolved rate is not strictly positive. -/
theorem resolver_negative_value_counterexample :
    get_bond_yield 0 (YahooFetch.ok (-1)) none < 0 := by
  norm_num [get_bond_yield, get_yahoo_rate]

/-- Claim C1 (amended): the resolver skips exceptions, empty frames and a
zero Yahoo value as soft failures, but it does not test the sign of a
delivered value; the result is strictly positive provided every Yahoo value
is nonnegative and every parsed Bank-of-Canada value is strictly positive
(in particular when all live sources fail, since the static fallback 3.861
is positive). -/
theorem resolver_positive (yahoo : YahooFetch) (boc : Option ℚ)
    (hy : ∀ v, yahoo = .ok v → 0 ≤ v) (hb : ∀ w, boc = some w → 0 < w) :
    0 < get_bond_yield 0 yahoo boc := by
  have hfb : 0 < boc_stage boc := by
    cases boc with
    | none => norm_num [boc_stage]
    | some w => exact hb w rfl
  cases yahoo with
  | exn => simpa [get_bond_yield, get_yahoo_rate] using hfb
  | empty => simpa [get_bond_yield, get_yahoo_rate] using hfb
  | ok v =>
    have hv : 0 ≤ v := hy v rfl
    by_cases h10 : 10 < v
    · have hpos : (0:ℚ) < v / 10 := by linarith
      have hne : v / 10 ≠ 0 := ne_of_gt hpos
      simpa [get_bond_yield, get_yahoo_rate, if_pos h10, hne] using hpos
    · rcases eq_or_lt_of_le hv with h0 | hpos
      · simpa [get_bond_yield, get_yahoo_rate, if_neg h10, ← h0] using hfb
      · simpa [get_bond_yield, get_yahoo_rate, if_neg h10, ne_of_gt hpos]
          using hpos

/-- Witness for C1 (amended): a zero Yahoo value is skipped and the
positive Bank-of-Canada value 5 wins. -/
theorem resolver_positive_witness :
    0 < get_bond_yield 0 (YahooFetch.ok 0) (some 5) :=
  resolver_positive _ _ (fun v hv => by cases hv; exact le_refl 0)
    (fun w hw => by cases hw; norm_num)

/-- Claim C5 counterexample: the value returned on total exhaustion carries
no `source="fallback"` tag — it is a bare number indistinguishable from a
live Yahoo observation of 3.861. -/
theorem fallback_untagged_counterexample :
    get_bond_yield 0 YahooFetch.exn none
      = get_bond_yield 0 (YahooFetch.ok (3861/1000)) none := by
  norm_num [get_bond_yield, get_yahoo_rate, boc_stage]

/-- Claim C5 (amended): when every live candidate fails (Yahoo raises,
returns an empty frame, or a zero value, and the Bank-of-Canada stage
fails), the resolver returns the static fallback 3.861 and raises no error;
the code attaches no source tag to it (provenance appears only in console
output). -/
theorem resolver_fallback (yahoo : YahooFetch) (boc : Option ℚ)
    (hy : yahoo = .exn ∨ yahoo = .empty ∨ yahoo = .ok 0) (hb : boc = none) :
    get_bond_yield 0 yahoo boc = 3861/1000 := by
  subst hb
  rcases hy with rfl | rfl | rfl <;>
    norm_num [get_bond_yield, get_yahoo_rate, boc_stage]

/-- Witness for C5 (amended): a Yahoo exception with a failed
Bank-of-Canada fetch yields 3.861. -/
theorem resolver_fallback_witness :
    get_bond_yield 0 YahooFetch.exn none = 3861/1000 :=
  resolver_fallback _ _ (Or.inl rfl) rfl

/-- Claim C8 counterexample: the override is consulted only when strictly
positive (`MANUAL_OVERRIDE > 0`), so the non-zero override -1 is ignored
and a live source wins instead. -/
theorem override_negative_counterexample :
    get_bond_yield (-1) (YahooFetch.ok 5) none ≠ -1 := by
  norm_num [get_bond_yield, get_yahoo_rate]

/-- Claim C8 (amended): for every strictly positive configured override
value the resolver returns the override and consults no other source. -/
theorem override_short_circuit (o : ℚ) (yahoo : YahooFetch) (boc : Option ℚ)
    (h : 0 < o) : get_bond_yield o yahoo boc = o := by
  simp [get_bond_yield, if_pos h]

/-- Witness for C8 (amended): override 2 is returned as is. -/
theorem override_short_circuit_witness :
    get_bond_yield 2 YahooFetch.exn none = 2 :=
  override_short_circuit 2 _ _ (by norm_num)

/-- Claim C2: at `bond_yield = -1.10` the total rate and hence `r` are
zero, and `calculate_impact` evaluates the unguarded division with a zero
denominator — Python raises `ZeroDivisionError` (modelled as `none`)
instead of returning the straight-line payment. -/
theorem zero_rate_division_failure :
    calculate_impact "2026-10-12" (-(11/10)) = none := by
  norm_num [calculate_impact, denominator, rate, total_rate, MUNICIPAL_SPREAD]

/-- Claim C3: for every `bond_yield` with `r = (bond_yield + spread)/100`
strictly positive, the unrounded quantities of `calculate_impact` satisfy
the specification's annuity formulas exactly, the denominator is nonzero,
and the computation produces a record. -/
theorem amortization_formula (d : String) (b : ℚ) (h : 0 < rate b) :
    total_rate b = b + MUNICIPAL_SPREAD ∧
    annual_payment b = annualPaymentSpec PRINCIPAL (rate b) AMORTIZATION ∧
    total_interest b = annual_payment b * (AMORTIZATION : ℚ) - PRINCIPAL ∧
    denominator b ≠ 0 ∧ calculate_impact d b ≠ none := by
  have h1 : (1:ℚ) < 1 + rate b := by linarith
  have hpow : (1:ℚ) < (1 + rate b) ^ AMORTIZATION :=
    one_lt_pow₀ h1 (by norm_num [AMORTIZATION])
  have hd : denominator b ≠ 0 := by
    unfold denominator
    exact sub_ne_zero.mpr (ne_of_gt hpow)
  refine ⟨rfl, ?_, rfl, hd, ?_⟩
  · unfold annual_payment numerator denominator annualPaymentSpec
    ring
  · simp [calculate_impact, hd]

/-- Witness for C3 at `bond_yield = 98.9` (so `r = 1`). -/
theorem amortization_formula_witness :
    0 < rate (989/10) ∧
    (total_rate (989/10) = 989/10 + MUNICIPAL_SPREAD ∧
     annual_payment (989/10)
       = annualPaymentSpec PRINCIPAL (rate (989/10)) AMORTIZATION ∧
     total_interest (989/10)
       = annual_payment (989/10) * (AMORTIZATION : ℚ) - PRINCIPAL ∧
     denominator (989/10) ≠ 0 ∧ calculate_impact "2026-10-12" (989/10) ≠ none) :=
  ⟨by norm_num [rate, total_rate, MUNICIPAL_SPREAD],
   amortization_formula "2026-10-12" (989/10)
     (by norm_num [rate, total_rate, MUNICIPAL_SPREAD])⟩

/-- Claim C7 counterexample: two invocations with the identical
`bond_yield` on different days return records differing in the `date`
field, which comes from the process clock. -/
theorem determinism_clock_counterexample :
    calculate_impact "2024-01-01" (989/10) ≠ calculate_impact "2024-01-02" (989/10) := by
  have hd : denominator (989/10) ≠ 0 := by
    norm_num [denominator, rate, total_rate, MUNICIPAL_SPREAD, AMORTIZATION]
  intro h
  have hdate := congrArg (Option.map ImpactRecord.date) h
  simp [calculate_impact, hd] at hdate

/-- Claim C7 (amended): `calculate_impact` is deterministic given both its
inputs — the `bond_yield` and the clock date: every field except `date`
depends on `bond_yield` alone, and invocations sharing the clock date
produce identical records. -/
theorem calculate_impact_deterministic (d₁ d₂ : String) (b : ℚ) :
    (calculate_impact d₁ b).map stripDate = (calculate_impact d₂ b).map stripDate ∧
    (d₁ = d₂ → calculate_impact d₁ b = calculate_impact d₂ b) := by
  constructor
  · by_cases h : denominator b = 0 <;> simp [calculate_impact, h, stripDate]
  · rintro rfl
    rfl

/-- Witness for C7 (amended) at equal dates. -/
theorem calculate_impact_deterministic_witness :
    (calculate_impact "2024-01-01" 1).map stripDate
      = (calculate_impact "2024-01-01" 1).map stripDate ∧
    calculate_impact "2024-01-01" 1 = calculate_impact "2024-01-01" 1 :=
  ⟨(calculate_impact_deterministic "2024-01-01" "2024-01-01" 1).1,
   (calculate_impact_deterministic "2024-01-01" "2024-01-01" 1).2 rfl⟩

/-- Claim C10: whenever `calculate_impact` produces a record, its
`household_impact` field is the unrounded annual payment divided by the
45000 households, rounded to two decimal places. -/
theorem household_impact_field (d : String) (b : ℚ) (h : denominator b ≠ 0) :
    (calculate_impact d b).map ImpactRecord.household_impact
      = some (pyRound 2 (annual_payment b / 45000)) := by
  simp [calculate_impact, h, household_impact, HOUSEHOLDS]

/-- Invariant step for the ledger: starting from a well-formed file whose
data rows are `rows ++ [prev]`, a sequence of writes with valid dates
produces the rows `rows ++ mergeWrites (prev :: ds)`. -/
theorem runWrites_merge (ds : List ImpactRecord) :
    ∀ (prev : ImpactRecord) (rows : List ImpactRecord),
    ValidDate prev.date → (∀ x ∈ ds, ValidDate x.date) →
    runWrites (some (headerRow :: (rows ++ [prev]).map renderRow)) ds
      = some (headerRow :: ((rows ++ mergeWrites (prev :: ds)).map renderRow)) := by
  induction ds with
  | nil =>
    intro prev rows _ _
    simp [runWrites, mergeWrites]
  | cons d ds ih =>
    intro prev rows hprev hds
    have hd : ValidDate d.date := hds d (List.mem_cons_self d ds)
    have hds' : ∀ x ∈ ds, ValidDate x.date :=
      fun x hx => hds x (List.mem_cons_of_mem d hx)
    have hfile : headerRow :: (rows ++ [prev]).map renderRow
        = (headerRow :: rows.map renderRow) ++ [renderRow prev] := by
      simp
    have hlast : (headerRow :: (rows ++ [prev]).map renderRow).getLastD []
        = renderRow prev := by
      rw [hfile]
      exact List.getLastD_concat _ _ _
    have hlen : 1 < (headerRow :: (rows ++ [prev]).map renderRow).length := by
      simp only [List.length_cons, List.length_map, List.length_append,
        List.length_singleton]
      omega
    rw [runWrites]
    by_cases hdate : d.date = prev.date
    · have hseg : d.date.data <:+: renderRow prev :=
        (date_seg_renderRow d.date prev hd hprev).mpr hdate
      have hupd : update_csv (some (headerRow :: (rows ++ [prev]).map renderRow)) d
          = headerRow :: (rows ++ [d]).map renderRow := by
        rw [update_csv, if_pos ⟨hlen, hlast ▸ hseg⟩, hfile, List.dropLast_concat]
        simp
      rw [hupd, ih d rows hd hds']
      have hmerge : mergeWrites (prev :: d :: ds) = mergeWrites (d :: ds) := by
        rw [mergeWrites, if_pos hdate.symm]
      rw [hmerge]
    · have hseg : ¬ d.date.data <:+: renderRow prev := fun h =>
        hdate ((date_seg_renderRow d.date prev hd hprev).mp h)
      have hupd : update_csv (some (headerRow :: (rows ++ [prev]).map renderRow)) d
          = headerRow :: ((rows ++ [prev]) ++ [d]).map renderRow := by
        rw [update_csv, if_neg (fun hco => hseg (hlast ▸ hco.2))]
        simp
      rw [hupd, ih d (rows ++ [prev]) hd hds']
      have hmerge : mergeWrites (prev :: d :: ds) = prev :: mergeWrites (d :: ds) := by
        rw [mergeWrites, if_neg (fun h => hdate h.symm)]
      rw [hmerge]
      simp [List.append_assoc]

/-- The merge of a nonempty write sequence is nonempty and, when the dates
are non-decreasing, its head's date is at least the first write's date. -/
theorem mergeWrites_head (d : ImpactRecord) (ds : List ImpactRecord) :
    ∃ e es, mergeWrites (d :: ds) = e :: es ∧
      (List.Chain' (fun a b : ImpactRecord => a.date ≤ b.date) (d :: ds) →
        d.date ≤ e.date) := by
  induction ds generalizing d with
  | nil => exact ⟨d, [], rfl, fun _ => le_refl _⟩
  | cons d' ds ih =>
    by_cases h : d.date = d'.date
    · obtain ⟨e, es, he, hle⟩ := ih d'
      refine ⟨e, es, ?_, fun hc => ?_⟩
      · rw [mergeWrites, if_pos h]
        exact he
      · exact h ▸ hle (List.chain'_cons.mp hc).2
    · exact ⟨d, mergeWrites (d' :: ds),
        by rw [mergeWrites, if_neg h], fun _ => le_refl _⟩

/-- Non-decreasing write dates make the merged row dates strictly
increasing. -/
theorem mergeWrites_chain : ∀ l : List ImpactRecord,
    List.Chain' (fun a b : ImpactRecord => a.date ≤ b.date) l →
    List.Chain' (fun a b : ImpactRecord => a.date < b.date) (mergeWrites l)
  | [] => fun _ => by simp [mergeWrites]
  | [_] => fun _ => by simp [mergeWrites]
  | d :: d' :: ds => fun hc => by
    have h1 : d.date ≤ d'.date := (List.chain'_cons.mp hc).1
    have h2 := (List.chain'_cons.mp hc).2
    have ihm := mergeWrites_chain (d' :: ds) h2
    by_cases h : d.date = d'.date
    · rw [mergeWrites, if_pos h]
      exact ihm
    · rw [mergeWrites, if_neg h]
      obtain ⟨e, es, he, hle⟩ := mergeWrites_head d' ds
      rw [he] at ihm ⊢
      exact List.chain'_cons.mpr ⟨lt_of_lt_of_le (lt_of_le_of_ne h1 h) (hle h2), ihm⟩

set_option maxRecDepth 4000 in
/-- Claim C4 counterexample: dedup only inspects the last data row, so the
non-monotone date sequence 2024-01-01, 2024-01-02, 2024-01-01 leaves two
rows carrying the date 2024-01-01. -/
theorem ledger_dedup_counterexample :
    (runWrites none
        [sampleRec "2024-01-01" 1, sampleRec "2024-01-02" 2,
         sampleRec "2024-01-01" 3]).map
      (fun f => rowsWithDate f "2024-01-01") = some 2 := by
  decide

/-- Claim C4 (amended): `update_csv` dedups only against the last data
row.  For every nonempty write sequence with valid dates in non-decreasing
order (as consecutive runs' `datetime.now()` produces), the resulting file
is the header followed by the last-write-wins merge of the date runs, its
row dates strictly increasing — hence at most one row per calendar date and
rows in chronological order; a same-date write replaces the last row with
the new values and a later-date write appends. -/
theorem ledger_dedup_by_day (r : ImpactRecord) (rs : List ImpactRecord)
    (hv : ∀ x ∈ r :: rs, ValidDate x.date)
    (hc : List.Chain' (fun a b : ImpactRecord => a.date ≤ b.date) (r :: rs)) :
    runWrites none (r :: rs)
      = some (headerRow :: (mergeWrites (r :: rs)).map renderRow) ∧
    List.Chain' (fun a b : ImpactRecord => a.date < b.date)
      (mergeWrites (r :: rs)) ∧
    List.Pairwise (fun a b : ImpactRecord => a.date ≠ b.date)
      (mergeWrites (r :: rs)) := by
  have hr : ValidDate r.date := hv r (List.mem_cons_self r rs)
  have hrs : ∀ x ∈ rs, ValidDate x.date :=
    fun x hx => hv x (List.mem_cons_of_mem r hx)
  refine ⟨?_, mergeWrites_chain _ hc, ?_⟩
  · have h0 : runWrites none (r :: rs)
        = runWrites (some (headerRow :: ([] ++ [r]).map renderRow)) rs := by
      simp [runWrites, update_csv]
    rw [h0, runWrites_merge rs r [] hr hrs]
    simp
  · have hchain := mergeWrites_chain _ hc
    haveI : IsTrans ImpactRecord (fun a b : ImpactRecord => a.date < b.date) :=
      ⟨fun _ _ _ h1 h2 => lt_trans h1 h2⟩
    exact (List.chain'_iff_pairwise.mp hchain).imp (fun h => ne_of_lt h)

/-- The two sample dates are in increasing order. -/
theorem sample_chain :
    List.Chain' (fun a b : ImpactRecord => a.date ≤ b.date)
      [sampleRec "2024-01-01" 1, sampleRec "2024-01-02" 2] := by
  refine List.chain'_cons.mpr ⟨?_, List.chain'_singleton _⟩
  show ("2024-01-01" : String) ≤ "2024-01-02"
  rw [String.le_iff_toList_le]
  decide

/-- Witness for C4 (amended) on the write sequence 2024-01-01 then
2024-01-02. -/
theorem ledger_dedup_by_day_witness :
    (∀ x ∈ [sampleRec "2024-01-01" 1, sampleRec "2024-01-02" 2],
      ValidDate x.date) ∧
    (runWrites none [sampleRec "2024-01-01" 1, sampleRec "2024-01-02" 2]
      = some (headerRow ::
          (mergeWrites
            [sampleRec "2024-01-01" 1, sampleRec "2024-01-02" 2]).map renderRow) ∧
    List.Chain' (fun a b : ImpactRecord => a.date < b.date)
      (mergeWrites [sampleRec "2024-01-01" 1, sampleRec "2024-01-02" 2]) ∧
    List.Pairwise (fun a b : ImpactRecord => a.date ≠ b.date)
      (mergeWrites [sampleRec "2024-01-01" 1, sampleRec "2024-01-02" 2])) :=
  ⟨by decide,
   ledger_dedup_by_day (sampleRec "2024-01-01" 1) [sampleRec "2024-01-02" 2]
     (by decide) sample_chain⟩

/-- Claim C6: the second same-date write takes the replace branch of
`update_csv`, whose on-disk trace truncates the live ledger in place — the
trace passes through the empty file, a state equal to neither the old nor
the new content, with no temporary file or rename involved — so an
interruption between `open(CSV_FILE, 'w')` and `writelines` leaves a
truncated ledger. -/
theorem ledger_replace_not_atomic :
    update_csv (some [headerRow, renderRow (sampleRec "2024-01-01" 1)])
        (sampleRec "2024-01-01" 2)
      = [headerRow, renderRow (sampleRec "2024-01-01" 2)] ∧
    ([] : List (List Char)) ∈
      replaceTrace [headerRow, renderRow (sampleRec "2024-01-01" 1)]
        [headerRow, renderRow (sampleRec "2024-01-01" 2)] ∧
    ([] : List (List Char)) ≠ [headerRow, renderRow (sampleRec "2024-01-01" 1)] ∧
    ([] : List (List Char)) ≠ [headerRow, renderRow (sampleRec "2024-01-01" 2)] := by
  refine ⟨by decide, ?_, by decide, by decide⟩
  simp [replaceTrace]

/-- Witness for C10 at `bond_yield = 98.9`. -/
theorem household_impact_field_witness :
    denominator (989/10) ≠ 0 ∧
    (calculate_impact "2026-10-12" (989/10)).map ImpactRecord.household_impact
      = some (pyRound 2 (annual_payment (989/10) / 45000)) :=
  ⟨by norm_num [denominator, rate, total_rate, MUNICIPAL_SPREAD, AMORTIZATION],
   household_impact_field "2026-10-12" (989/10)
     (by norm_num [denominator, rate, total_rate, MUNICIPAL_SPREAD, AMORTIZATION])⟩

end ArenaTracker
